import Mathlib

/-!
Authress/vanishing-keys: `make.js`

A shallow embedding of the build script `make.js`: the version resolver
`getVersion` and the `deploy` command action, followed by the properties of
both that the specification states.

JavaScript strings are modelled as lists of characters.  The regular
expressions of the script all carry the `i` flag without the `u` flag, so a
pattern character matches an input character when both have the same ASCII
upper-case form; `\d` is the class `0`..`9`.
-/

namespace VanishingKeys

/-- JavaScript string: a sequence of characters. -/
abbrev Str := List Char

/-- Runtime errors the script can raise by itself. -/
inductive JsError where
  /-- Property access on `null` or `undefined`. -/
  | typeError
  deriving DecidableEq, Repr

deriving instance DecidableEq for Except

/-! ## String primitives -/

/-- Case folding used by a regular expression with the `i` flag. -/
def canon (c : Char) : Char := c.toUpper

/-- Match the literal `pat` case-insensitively at the start of the input and
return the rest of the input. -/
def matchLiteralCI : Str → Str → Option Str
  | [], s => some s
  | _ :: _, [] => none
  | p :: ps, c :: cs => if canon c = canon p then matchLiteralCI ps cs else none

/-- The input contains `pat` somewhere, case-insensitively: an unanchored
regular expression made of a literal. -/
def searchLiteralCI (pat : Str) : Str → Bool
  | [] => (matchLiteralCI pat []).isSome
  | c :: cs => (matchLiteralCI pat (c :: cs)).isSome || searchLiteralCI pat cs

/-- `String.prototype.split` with a one-character separator. -/
def split (sep : Char) : Str → List Str
  | [] => [[]]
  | c :: cs =>
    if c = sep then [] :: split sep cs
    else
      match split sep cs with
      | [] => [[c]]
      | seg :: segs => (c :: seg) :: segs

/-- `Array.prototype.join`. -/
def join (sep : Str) : List Str → Str
  | [] => []
  | [s] => s
  | s :: t :: rest => s ++ sep ++ join sep (t :: rest)

/-- `String.prototype.replace` with a string pattern and a replacement without
dollar patterns: the first occurrence of `pat` is replaced by `rep`, the rest
is kept. -/
def replace (pat rep : Str) : Str → Str
  | [] => if pat = [] then rep else []
  | c :: cs =>
    if pat.isPrefixOf (c :: cs) then rep ++ (c :: cs).drop pat.length
    else c :: replace pat rep cs

/-- Template literal of one value that is a string or `undefined`. -/
def templateString : Option Str → Str
  | none => ['u', 'n', 'd', 'e', 'f', 'i', 'n', 'e', 'd']
  | some s => s

/-! ## The regular expressions of `getVersion` -/

/-- The literal `refs/heads/`. -/
def refsHeadsSlash : Str := ['r', 'e', 'f', 's', '/', 'h', 'e', 'a', 'd', 's', '/']

/-- The literal `release`. -/
def releaseWord : Str := ['r', 'e', 'l', 'e', 'a', 's', 'e']

/-- The fragment `release` followed by the class of slash and hyphen, at the
start of the input; returns the rest. -/
def matchReleaseSep (s : Str) : Option Str :=
  match matchLiteralCI releaseWord s with
  | some (c :: rest) => if c = '/' ∨ c = '-' then some rest else none
  | _ => none

/-- The first pattern of `getVersion`: start of input, optional group
`refs\/heads\/`, `release`, one of slash and hyphen; flag `i`.  The optional
group is tried first, then skipped. -/
def isReleaseRef (s : Str) : Bool :=
  (match matchLiteralCI refsHeadsSlash s with
   | some r => (matchReleaseSep r).isSome
   | none => false) || (matchReleaseSep s).isSome

/-- The fragment `\d+`, greedy: the rest after the longest non-empty run of
digits.  What follows `\d+` in the pattern is a dot or the end of the input,
so giving digits back never yields a match. -/
def matchDigits : Str → Option Str
  | [] => none
  | c :: cs => if c.isDigit then some (cs.dropWhile Char.isDigit) else none

/-- The fragment `(?:\.\d+){0,n}$`. -/
def matchDotGroups : Nat → Str → Bool
  | _, [] => true
  | 0, _ :: _ => false
  | n + 1, c :: cs =>
    if c = '.' then
      match matchDigits cs with
      | some r => matchDotGroups n r
      | none => false
    else false

/-- The fragment `(\d+(?:\.\d+){0,3})$`; the capture runs to the end of the
input, so it is the input itself. -/
def matchVersionToEnd (s : Str) : Option Str :=
  match matchDigits s with
  | some r => if matchDotGroups 3 r then some s else none
  | none => none

/-- Capture group 1 of the second pattern of `getVersion`: the first pattern
followed by `(\d+(?:\.\d+){0,3})$`; `none` when `String.prototype.match`
returns `null`. -/
def matchReleaseVersion (s : Str) : Option Str :=
  match (matchLiteralCI refsHeadsSlash s).bind
      (fun r => (matchReleaseSep r).bind matchVersionToEnd) with
  | some v => some v
  | none => (matchReleaseSep s).bind matchVersionToEnd

/-! ## `getVersion` -/

/-- The literal `false` of the pull-request test. -/
def falseWord : Str := ['f', 'a', 'l', 's', 'e']

/-- The last statement of `getVersion`: append the build number (or `0` when
it is the empty string) and `.0.0.0.0`, split at the dots, keep three
segments, join them. -/
def assemble (release_version build_number : Str) : Str :=
  join ['.'] ((split '.' (release_version ++ ['.'] ++
    (if build_number = [] then ['0'] else build_number) ++
    ['.', '0', '.', '0', '.', '0', '.', '0'])).take 3)

/-- The body of `getVersion` as a function of its local `pull_request` and of
the two environment variables it reads. -/
def getVersionBody (pull_request : Str) (GITHUB_REF GITHUB_RUN_NUMBER : Option Str) :
    Except JsError Str :=
  let branch := GITHUB_REF
  let build_number := templateString GITHUB_RUN_NUMBER
  let release_version : Except JsError Str :=
    if pull_request ≠ [] ∧ searchLiteralCI falseWord pull_request = false then
      .ok (['0', '.'] ++ pull_request)
    else
      match branch with
      | none => .ok ['0', '.', '0']
      | some b =>
        if b = [] ∨ isReleaseRef b = false then .ok ['0', '.', '0']
        else
          match matchReleaseVersion b with
          | some v => .ok v
          | none => .error .typeError
  match release_version with
  | .ok rv => .ok (assemble rv build_number)
  | .error e => .error e

/-- The function `getVersion` of `make.js`: `pull_request` is the constant
empty string. -/
def getVersion (GITHUB_REF GITHUB_RUN_NUMBER : Option Str) : Except JsError Str :=
  getVersionBody [] GITHUB_REF GITHUB_RUN_NUMBER

/-! ## The `deploy` command -/

/-- Calls of the action on its `AwsArchitect` object, with the arguments the
script computes (the template object is left out). -/
inductive Call where
  | publishLambdaArtifactPromise
  | deployTemplate (changeSetName stackName serviceName dnsName hostedName hostedZoneId : Str)
  | publishAndDeployStagePromise (stage functionName deploymentKeyName : Str)
  | cleanupPreviousFunctionVersions (functionName : Str)
  deriving DecidableEq, Repr

/-- What the action cannot decide by itself: whether the constructor and the
`require` of the template return, and whether the promise of each call
resolves (`true`) or rejects (`false`). -/
structure World where
  construct : Bool
  requireTemplate : Bool
  resolves : Call → Bool

/-- How the action ends: `succeeded` when the `try` block runs to its end and
logs the result, `failed` when the `catch` block logs the error and calls
`process.exit(1)`. -/
inductive Status where
  | succeeded
  | failed
  deriving DecidableEq, Repr

/-- A statement sequence inside the `try` block: from the calls made so far to
the calls made and a value, or `none` once something was thrown. -/
def Script (α : Type) : Type := List Call → List Call × Option α

/-- Sequencing: nothing runs after a throw. -/
def Script.andThen {α β : Type} (m : Script α) (f : α → Script β) : Script β :=
  fun t =>
    match m t with
    | (t1, some a) => f a t1
    | (t1, none) => (t1, none)

instance : Monad Script where
  pure a := fun t => (t, some a)
  bind := Script.andThen

/-- A `throw`. -/
def raise {α : Type} : Script α := fun t => (t, none)

/-- A step that makes no call and may throw. -/
def check (ok : Bool) : Script Unit := if ok then pure () else raise

/-- An awaited call: it is recorded, then it returns or throws. -/
def await (w : World) (c : Call) : Script Unit :=
  fun t => (t ++ [c], if w.resolves c then some () else none)

/-- The literal `refs/heads/main`. -/
def refsHeadsMain : Str :=
  ['r', 'e', 'f', 's', '/', 'h', 'e', 'a', 'd', 's', '/', 'm', 'a', 'i', 'n']

/-- The literal `refs/heads`. -/
def refsHeads : Str := ['r', 'e', 'f', 's', '/', 'h', 'e', 'a', 'd', 's']

/-- The literal `production`. -/
def production : Str := ['p', 'r', 'o', 'd', 'u', 'c', 't', 'i', 'o', 'n']

/-- The test `process.env.GITHUB_REF === 'refs/heads/main'`. -/
def isMainLine (GITHUB_REF : Option Str) : Bool := GITHUB_REF == some refsHeadsMain

/-- The `stage` argument; reading it throws when the run is not main-line and
`GITHUB_REF` is undefined. -/
def stageOf (GITHUB_REF : Option Str) : Option Str :=
  if isMainLine GITHUB_REF then some production
  else
    match GITHUB_REF with
    | some ref => some (replace refsHeads [] ref)
    | none => none

/-- The change set name: `main-` and the run number, or `1` when that is
undefined or empty. -/
def changeSetName (GITHUB_RUN_NUMBER : Option Str) : Str :=
  ['m', 'a', 'i', 'n', '-'] ++
    (match GITHUB_RUN_NUMBER with
     | some (c :: cs) => c :: cs
     | _ => ['1'])

/-- The deployment key: name, version and `lambda.zip` joined by slashes. -/
def deploymentKeyName (name version : Str) : Str :=
  name ++ ['/'] ++ version ++ ['/', 'l', 'a', 'm', 'b', 'd', 'a', '.', 'z', 'i', 'p']

/-- The `deployTemplate` call of a main-line run: change set name and stack
name, then the four template parameters. -/
def templateCall (GITHUB_RUN_NUMBER : Option Str) (name : Str) : Call :=
  .deployTemplate (changeSetName GITHUB_RUN_NUMBER) name
    name "vanish".toList "authress.io".toList "Z0450507492KPW6PS5CR".toList

/-- The `publishAndDeployStagePromise` call: stage, function name, deployment
key. -/
def stageCall (stage name version : Str) : Call :=
  .publishAndDeployStagePromise stage name (deploymentKeyName name version)

/-- The `try` block of the action, `name` being `packageMetadata.name`. -/
def deployTry (GITHUB_REF GITHUB_RUN_NUMBER : Option Str) (name version : Str)
    (w : World) : Script Unit := do
  check w.construct
  await w .publishLambdaArtifactPromise
  check w.requireTemplate
  if isMainLine GITHUB_REF then
    await w (templateCall GITHUB_RUN_NUMBER name)
  match stageOf GITHUB_REF with
  | some stage => await w (stageCall stage name version)
  | none => raise
  if isMainLine GITHUB_REF then
    await w (.cleanupPreviousFunctionVersions name)

/-- One run of the action: the calls it makes and how it ends. -/
structure Run where
  calls : List Call
  status : Status
  deriving DecidableEq, Repr

/-- The action of the `deploy` command. -/
def deployAction (GITHUB_REF GITHUB_RUN_NUMBER : Option Str) (name version : Str)
    (w : World) : Run :=
  match deployTry GITHUB_REF GITHUB_RUN_NUMBER name version w [] with
  | (calls, some _) => ⟨calls, .succeeded⟩
  | (calls, none) => ⟨calls, .failed⟩

/-! ## Vocabulary of the properties -/

/-- A non-empty string of decimal digits. -/
def IsNumber (d : Str) : Prop := d ≠ [] ∧ ∀ c ∈ d, c.isDigit = true

instance (d : Str) : Decidable (IsNumber d) := by
  unfold IsNumber; infer_instance

/-- The text after the first component of a dotted string: every further
component preceded by a dot. -/
def dotTail : List Str → Str
  | [] => []
  | c :: cs => '.' :: (c ++ dotTail cs)

/-- A reference name made of the optional `refs/heads/`, `release`, a
separator and a remainder. -/
def releaseRef (withPrefix : Bool) (sep : Char) (rest : Str) : Str :=
  (if withPrefix then refsHeadsSlash else []) ++ releaseWord ++ sep :: rest

/-- The text appended after the base version and the dot: the build number,
or `0` when it is empty, and four zero components. -/
def buildTail (build_number : Str) : Str :=
  (if build_number = [] then ['0'] else build_number) ++
    ['.', '0', '.', '0', '.', '0', '.', '0']

/-- Two strings that differ at most in the case of their ASCII letters. -/
def SameLetters (a b : Str) : Prop := a.map Char.toUpper = b.map Char.toUpper

/-- The reference name starts with `release`, or with `refs/heads/` and then
`release`, the letters in any case, followed by a slash or a hyphen. -/
def HasReleaseHead (r : Str) : Prop :=
  ∃ (p w : Str) (sep : Char) (rest : Str), r = p ++ w ++ sep :: rest ∧
    (p = [] ∨ SameLetters p "refs/heads/".toList) ∧ SameLetters w "release".toList ∧
    (sep = '/' ∨ sep = '-')

/-- The build context of the specification. -/
structure BuildContext where
  refName : Option Str
  buildNumber : Option Str
  pullRequestId : Option Str

/-- The version the script computes in a build context: `getVersion` reads
`GITHUB_REF` and `GITHUB_RUN_NUMBER`, and no pull-request identifier. -/
def resolve (ctx : BuildContext) : Except JsError Str :=
  getVersion ctx.refName ctx.buildNumber

/-- A world in which nothing fails. -/
def allSucceed : World := ⟨true, true, fun _ => true⟩

/-- A world in which only `cleanupPreviousFunctionVersions` fails. -/
def onlyCleanupFails : World :=
  ⟨true, true, fun c =>
    match c with
    | .cleanupPreviousFunctionVersions _ => false
    | _ => true⟩

/-- A world in which only `deployTemplate` fails. -/
def onlyTemplateFails : World :=
  ⟨true, true, fun c =>
    match c with
    | .deployTemplate _ _ _ _ _ _ => false
    | _ => true⟩

/-! ## Lemmas on the string primitives -/

theorem split_of_not_mem (sep : Char) (d : Str) (h : sep ∉ d) : split sep d = [d] := by
  induction d with
  | nil => rfl
  | cons c cs ih =>
    have hc : c ≠ sep := fun e => h (by simp [e])
    have hcs : sep ∉ cs := fun e => h (by simp [e])
    simp [split, hc, ih hcs]

theorem split_append_sep (sep : Char) (d rest : Str) (h : sep ∉ d) :
    split sep (d ++ sep :: rest) = d :: split sep rest := by
  induction d with
  | nil => simp [split]
  | cons c cs ih =>
    have hc : c ≠ sep := fun e => h (by simp [e])
    have hcs : sep ∉ cs := fun e => h (by simp [e])
    simp [split, hc, ih hcs]

theorem isDigit_ne_dot (c : Char) (h : c.isDigit = true) : c ≠ '.' := by
  rintro rfl
  exact absurd h (by decide)

theorem IsNumber.dot_not_mem {d : Str} (h : IsNumber d) : '.' ∉ d :=
  fun hm => isDigit_ne_dot _ (h.2 _ hm) rfl

theorem split_join_append (cs : List Str) (rest : Str) (hne : cs ≠ [])
    (h : ∀ c ∈ cs, '.' ∉ c) :
    split '.' (join ['.'] cs ++ '.' :: rest) = cs ++ split '.' rest := by
  induction cs with
  | nil => exact absurd rfl hne
  | cons c cs ih =>
    cases cs with
    | nil => simpa [join] using split_append_sep '.' c rest (h c (by simp))
    | cons t ts =>
      have h1 : '.' ∉ c := h c (by simp)
      have h2 : ∀ x ∈ t :: ts, '.' ∉ x := fun x hx => h x (by simp [hx])
      have := ih (by simp) h2
      simp only [join, List.append_assoc, List.singleton_append, List.cons_append,
        List.nil_append]
      rw [split_append_sep '.' c _ h1, this]
      rfl

theorem matchLiteralCI_append (p s : Str) : matchLiteralCI p (p ++ s) = some s := by
  induction p with
  | nil => cases s <;> rfl
  | cons c cs ih => simp [matchLiteralCI, ih]

/-! ## Lemmas on the version pattern -/

theorem join_cons_eq (c : Str) (cs : List Str) : join ['.'] (c :: cs) = c ++ dotTail cs := by
  induction cs generalizing c with
  | nil => simp [join, dotTail]
  | cons t ts ih => simp [join, dotTail, ih t]

theorem dropWhile_digits_append (cs rest : Str) (h : ∀ c ∈ cs, c.isDigit = true) :
    (cs ++ rest).dropWhile Char.isDigit = rest.dropWhile Char.isDigit := by
  induction cs with
  | nil => rfl
  | cons c cs ih =>
    have hc : c.isDigit = true := h c (by simp)
    have hcs : ∀ x ∈ cs, x.isDigit = true := fun x hx => h x (by simp [hx])
    simp [List.dropWhile, hc, ih hcs]

theorem dropWhile_dotTail (cs : List Str) :
    (dotTail cs).dropWhile Char.isDigit = dotTail cs := by
  cases cs with
  | nil => rfl
  | cons c cs =>
    have : Char.isDigit '.' = false := by decide
    simp [dotTail, List.dropWhile, this]

theorem matchDigits_number (d rest : Str) (hd : IsNumber d)
    (hr : rest.dropWhile Char.isDigit = rest) : matchDigits (d ++ rest) = some rest := by
  obtain ⟨hne, hdig⟩ := hd
  cases d with
  | nil => exact absurd rfl hne
  | cons c cs =>
    have hc : c.isDigit = true := hdig c (by simp)
    have hcs : ∀ x ∈ cs, x.isDigit = true := fun x hx => hdig x (by simp [hx])
    simp [matchDigits, hc, dropWhile_digits_append cs rest hcs, hr]

theorem matchDigits_some (s r : Str) (h : matchDigits s = some r) :
    ∃ d, IsNumber d ∧ s = d ++ r := by
  cases s with
  | nil => simp [matchDigits] at h
  | cons c cs =>
    by_cases hc : c.isDigit = true
    · simp [matchDigits, hc] at h
      refine ⟨c :: cs.takeWhile Char.isDigit, ⟨by simp, ?_⟩, ?_⟩
      · intro x hx
        rcases List.mem_cons.1 hx with rfl | hx
        · exact hc
        · exact List.mem_takeWhile_imp hx
      · rw [← h]; simp [List.takeWhile_append_dropWhile]
    · simp [matchDigits, hc] at h

theorem matchDotGroups_dotTail (n : Nat) (cs : List Str) (hlen : cs.length ≤ n)
    (hnum : ∀ c ∈ cs, IsNumber c) : matchDotGroups n (dotTail cs) = true := by
  induction cs generalizing n with
  | nil => cases n <;> rfl
  | cons c cs ih =>
    cases n with
    | zero => simp at hlen
    | succ n =>
      have hc : IsNumber c := hnum c (by simp)
      have hcs : ∀ x ∈ cs, IsNumber x := fun x hx => hnum x (by simp [hx])
      have hl : cs.length ≤ n := by simpa using hlen
      simp [dotTail, matchDotGroups, matchDigits_number c _ hc (dropWhile_dotTail cs),
        ih n hl hcs]

theorem matchDotGroups_true (n : Nat) (r : Str) (h : matchDotGroups n r = true) :
    ∃ cs : List Str, cs.length ≤ n ∧ (∀ c ∈ cs, IsNumber c) ∧ r = dotTail cs := by
  induction n generalizing r with
  | zero =>
    cases r with
    | nil => exact ⟨[], by simp, by simp, rfl⟩
    | cons c cs => simp [matchDotGroups] at h
  | succ n ih =>
    cases r with
    | nil => exact ⟨[], by simp, by simp, rfl⟩
    | cons c cs =>
      by_cases hc : c = '.'
      · subst hc
        cases hm : matchDigits cs with
        | none => simp [matchDotGroups, hm] at h
        | some r1 =>
          simp [matchDotGroups, hm] at h
          obtain ⟨d, hd, hcs⟩ := matchDigits_some cs r1 hm
          obtain ⟨ds, hlen, hnum, hr1⟩ := ih r1 h
          refine ⟨d :: ds, by simpa using hlen, ?_, ?_⟩
          · intro x hx
            rcases List.mem_cons.1 hx with rfl | hx
            · exact hd
            · exact hnum x hx
          · simp [dotTail, hcs, hr1]
      · simp [matchDotGroups, hc] at h

theorem matchVersionToEnd_join (cs : List Str) (hne : cs ≠ []) (hlen : cs.length ≤ 4)
    (hnum : ∀ c ∈ cs, IsNumber c) :
    matchVersionToEnd (join ['.'] cs) = some (join ['.'] cs) := by
  cases cs with
  | nil => exact absurd rfl hne
  | cons c cs =>
    have hc : IsNumber c := hnum c (by simp)
    have hcs : ∀ x ∈ cs, IsNumber x := fun x hx => hnum x (by simp [hx])
    have hl : cs.length ≤ 3 := by simpa using hlen
    simp [matchVersionToEnd, join_cons_eq, matchDigits_number c _ hc (dropWhile_dotTail cs),
      matchDotGroups_dotTail 3 cs hl hcs]

theorem matchVersionToEnd_some (s v : Str) (h : matchVersionToEnd s = some v) :
    ∃ cs : List Str, cs ≠ [] ∧ cs.length ≤ 4 ∧ (∀ c ∈ cs, IsNumber c) ∧ v = join ['.'] cs := by
  unfold matchVersionToEnd at h
  cases hm : matchDigits s with
  | none => simp [hm] at h
  | some r =>
    by_cases hg : matchDotGroups 3 r = true
    · simp [hm, hg] at h
      obtain ⟨d, hd, hs⟩ := matchDigits_some s r hm
      obtain ⟨ds, hlen, hnum, hr⟩ := matchDotGroups_true 3 r hg
      refine ⟨d :: ds, by simp, by simpa using hlen, ?_, ?_⟩
      · intro x hx
        rcases List.mem_cons.1 hx with rfl | hx
        · exact hd
        · exact hnum x hx
      · rw [← h, join_cons_eq, hs, hr]
    · simp [hm, hg] at h

/-! ## Lemmas on `getVersion` -/

theorem matchReleaseSep_releaseWord (sep : Char) (rest : Str) (hsep : sep = '/' ∨ sep = '-') :
    matchReleaseSep (releaseWord ++ sep :: rest) = some rest := by
  simp [matchReleaseSep, matchLiteralCI_append, hsep]

theorem matchReleaseSep_refsHeadsSlash (rest : Str) :
    matchReleaseSep (refsHeadsSlash ++ rest) = none := by
  have h : ¬ (canon 'f' = canon 'l') := by decide
  simp [matchReleaseSep, refsHeadsSlash, releaseWord, matchLiteralCI, h]

theorem matchLiteralCI_refsHeadsSlash_releaseWord (rest : Str) :
    matchLiteralCI refsHeadsSlash (releaseWord ++ rest) = none := by
  have h : ¬ (canon 'l' = canon 'f') := by decide
  simp [refsHeadsSlash, releaseWord, matchLiteralCI, h]

theorem isReleaseRef_releaseRef (withPrefix : Bool) (sep : Char) (rest : Str)
    (hsep : sep = '/' ∨ sep = '-') : isReleaseRef (releaseRef withPrefix sep rest) = true := by
  cases withPrefix with
  | true =>
    simp [isReleaseRef, releaseRef, List.append_assoc, matchLiteralCI_append,
      matchReleaseSep_releaseWord sep rest hsep]
  | false =>
    simp [isReleaseRef, releaseRef, matchReleaseSep_releaseWord sep rest hsep]

theorem matchReleaseVersion_releaseRef (withPrefix : Bool) (sep : Char) (rest : Str)
    (hsep : sep = '/' ∨ sep = '-') :
    matchReleaseVersion (releaseRef withPrefix sep rest) = matchVersionToEnd rest := by
  cases withPrefix with
  | true =>
    have h1 : matchLiteralCI refsHeadsSlash (refsHeadsSlash ++ (releaseWord ++ sep :: rest))
        = some (releaseWord ++ sep :: rest) := matchLiteralCI_append _ _
    have h2 := matchReleaseSep_releaseWord sep rest hsep
    have h3 := matchReleaseSep_refsHeadsSlash (releaseWord ++ sep :: rest)
    simp only [matchReleaseVersion, releaseRef, if_true, List.append_assoc, h1, h2, h3,
      Option.bind]
    cases matchVersionToEnd rest <;> rfl
  | false =>
    have h1 := matchLiteralCI_refsHeadsSlash_releaseWord (sep :: rest)
    have h2 := matchReleaseSep_releaseWord sep rest hsep
    simp [matchReleaseVersion, releaseRef, h1, h2]

theorem releaseRef_ne_nil (withPrefix : Bool) (sep : Char) (rest : Str) :
    releaseRef withPrefix sep rest ≠ [] := by
  cases withPrefix <;> simp [releaseRef, releaseWord, refsHeadsSlash]

theorem matchReleaseVersion_some (s v : Str) (h : matchReleaseVersion s = some v) :
    ∃ r, matchVersionToEnd r = some v := by
  unfold matchReleaseVersion at h
  cases h1 : matchLiteralCI refsHeadsSlash s with
  | none =>
    simp only [h1, Option.bind] at h
    cases h2 : matchReleaseSep s with
    | none => simp [h2] at h
    | some r => exact ⟨r, by simpa [h2] using h⟩
  | some r1 =>
    cases h3 : matchReleaseSep r1 with
    | none =>
      simp only [h1, h3, Option.bind] at h
      cases h2 : matchReleaseSep s with
      | none => simp [h2] at h
      | some r => exact ⟨r, by simpa [h2] using h⟩
    | some r2 =>
      cases h4 : matchVersionToEnd r2 with
      | none =>
        simp only [h1, h3, h4, Option.bind] at h
        cases h2 : matchReleaseSep s with
        | none => simp [h2] at h
        | some r => exact ⟨r, by simpa [h2] using h⟩
      | some v2 =>
        simp only [h1, h3, h4, Option.bind] at h
        exact ⟨r2, by rw [h4]; exact h⟩

theorem assemble_join (cs : List Str) (b : Str) (hne : cs ≠ []) (h : ∀ c ∈ cs, '.' ∉ c) :
    assemble (join ['.'] cs) b = join ['.'] ((cs ++ split '.' (buildTail b)).take 3) := by
  unfold assemble buildTail
  have e : join ['.'] cs ++ ['.'] ++ (if b = [] then ['0'] else b) ++
      ['.', '0', '.', '0', '.', '0', '.', '0'] =
      join ['.'] cs ++ '.' :: ((if b = [] then ['0'] else b) ++
      ['.', '0', '.', '0', '.', '0', '.', '0']) := by simp
  rw [e, split_join_append cs _ hne h]

theorem split_buildTail (n : Str) (hne : n ≠ []) (h : '.' ∉ n) :
    split '.' (buildTail n) = [n, ['0'], ['0'], ['0'], ['0']] := by
  unfold buildTail
  rw [if_neg hne, split_append_sep '.' n _ h]
  rfl

theorem getVersion_releaseRef (withPrefix : Bool) (sep : Char) (cs : List Str)
    (bn : Option Str) (hsep : sep = '/' ∨ sep = '-') (hne : cs ≠ []) (hlen : cs.length ≤ 4)
    (hnum : ∀ c ∈ cs, IsNumber c) :
    getVersion (some (releaseRef withPrefix sep (join ['.'] cs))) bn =
      .ok (join ['.'] ((cs ++ split '.' (buildTail (templateString bn))).take 3)) := by
  have h1 := isReleaseRef_releaseRef withPrefix sep (join ['.'] cs) hsep
  have h2 := matchReleaseVersion_releaseRef withPrefix sep (join ['.'] cs) hsep
  have h3 := matchVersionToEnd_join cs hne hlen hnum
  have h4 := releaseRef_ne_nil withPrefix sep (join ['.'] cs)
  have h5 := assemble_join cs (templateString bn) hne (fun c hc => (hnum c hc).dot_not_mem)
  simp [getVersion, getVersionBody, h1, h2, h3, h4, h5]

theorem getVersion_default (ref bn : Option Str)
    (h : ref = none ∨ ∃ r, ref = some r ∧ isReleaseRef r = false) :
    getVersion ref bn =
      .ok (join ['.'] (([['0'], ['0']] ++ split '.' (buildTail (templateString bn))).take 3)) := by
  have h5 := assemble_join [['0'], ['0']] (templateString bn) (by simp)
    (by intro c hc; simp at hc; subst hc; decide)
  have e : join ['.'] [['0'], ['0']] = ['0', '.', '0'] := rfl
  rw [e] at h5
  rcases h with rfl | ⟨r, rfl, hr⟩
  · simp [getVersion, getVersionBody, h5]
  · simp [getVersion, getVersionBody, hr, h5]

theorem matchLiteralCI_some (p s rest : Str) (h : matchLiteralCI p s = some rest) :
    ∃ w, s = w ++ rest ∧ SameLetters w p := by
  induction p generalizing s with
  | nil =>
    cases s <;> simp [matchLiteralCI] at h <;> exact ⟨[], by simp [h], rfl⟩
  | cons a ps ih =>
    cases s with
    | nil => simp [matchLiteralCI] at h
    | cons c cs =>
      by_cases hc : canon c = canon a
      · simp [matchLiteralCI, hc] at h
        obtain ⟨w, hw, hs⟩ := ih cs h
        refine ⟨c :: w, by simp [hw], ?_⟩
        unfold SameLetters at hs ⊢
        unfold canon at hc
        simp [hc, hs]
      · simp [matchLiteralCI, hc] at h

theorem matchLiteralCI_sameLetters (p w rest : Str) (h : SameLetters w p) :
    matchLiteralCI p (w ++ rest) = some rest := by
  induction p generalizing w with
  | nil =>
    unfold SameLetters at h
    simp at h
    subst h
    cases rest <;> rfl
  | cons a ps ih =>
    cases w with
    | nil => unfold SameLetters at h; simp at h
    | cons c cs =>
      unfold SameLetters at h
      simp at h
      have hc : canon c = canon a := h.1
      simp [matchLiteralCI, hc, ih cs h.2]

theorem hasReleaseHead_iff (r : Str) : HasReleaseHead r ↔ isReleaseRef r = true := by
  have e1 : "refs/heads/".toList = refsHeadsSlash := rfl
  have e2 : "release".toList = releaseWord := rfl
  constructor
  · rintro ⟨p, w, sep, rest, rfl, hp, hw, hsep⟩
    rw [e2] at hw
    have hrel : matchReleaseSep (w ++ sep :: rest) = some rest := by
      simp [matchReleaseSep, matchLiteralCI_sameLetters releaseWord w (sep :: rest) hw, hsep]
    rcases hp with rfl | hp
    · simp [isReleaseRef, hrel]
    · rw [e1] at hp
      have hpre := matchLiteralCI_sameLetters refsHeadsSlash p (w ++ sep :: rest) hp
      simp [isReleaseRef, List.append_assoc, hpre, hrel]
  · intro h
    have sepCase : ∀ s rest, matchReleaseSep s = some rest →
        ∃ w sep, s = w ++ sep :: rest ∧ SameLetters w releaseWord ∧ (sep = '/' ∨ sep = '-') := by
      intro s rest hs
      unfold matchReleaseSep at hs
      cases hm : matchLiteralCI releaseWord s with
      | none => simp [hm] at hs
      | some t =>
        cases t with
        | nil => simp [hm] at hs
        | cons c t =>
          by_cases hc : c = '/' ∨ c = '-'
          · simp [hm, hc] at hs
            obtain ⟨w, hw, hl⟩ := matchLiteralCI_some releaseWord s (c :: t) hm
            exact ⟨w, c, by rw [hw, hs], hl, hc⟩
          · simp [hm, hc] at hs
    have second : (matchReleaseSep r).isSome = true → HasReleaseHead r := by
      intro h2
      obtain ⟨rest, hrest⟩ := Option.isSome_iff_exists.1 h2
      obtain ⟨w, sep, hr, hw, hsep⟩ := sepCase r rest hrest
      exact ⟨[], w, sep, rest, by simpa using hr, Or.inl rfl, by rw [e2]; exact hw, hsep⟩
    unfold isReleaseRef at h
    rcases Bool.or_eq_true_iff.1 h with h1 | h2
    · cases hm : matchLiteralCI refsHeadsSlash r with
      | none => simp [hm] at h1
      | some r1 =>
        simp only [hm] at h1
        obtain ⟨rest, hrest⟩ := Option.isSome_iff_exists.1 h1
        obtain ⟨w, sep, hr1, hw, hsep⟩ := sepCase r1 rest hrest
        obtain ⟨p, hp, hl⟩ := matchLiteralCI_some refsHeadsSlash r r1 hm
        exact ⟨p, w, sep, rest, by rw [hp, hr1, List.append_assoc],
          Or.inr (by rw [e1]; exact hl), by rw [e2]; exact hw, hsep⟩
    · exact second h2

theorem take_three (l : List Str) (hlen : 3 ≤ l.length) (h : ∀ x ∈ l, IsNumber x) :
    ∃ a b c, IsNumber a ∧ IsNumber b ∧ IsNumber c ∧ l.take 3 = [a, b, c] := by
  match l, hlen, h with
  | a :: b :: c :: _, _, h =>
    exact ⟨a, b, c, h a (by simp), h b (by simp), h c (by simp), rfl⟩

theorem split_triple (a b c : Str) (ha : IsNumber a) (hb : IsNumber b) (hc : IsNumber c) :
    split '.' (a ++ ['.'] ++ b ++ ['.'] ++ c) = [a, b, c] := by
  have e : a ++ ['.'] ++ b ++ ['.'] ++ c = a ++ '.' :: (b ++ '.' :: c) := by simp
  rw [e, split_append_sep '.' a _ ha.dot_not_mem, split_append_sep '.' b _ hb.dot_not_mem,
    split_of_not_mem '.' c hc.dot_not_mem]

theorem isNumber_zero : IsNumber ['0'] := by decide

/-! ## Properties of `getVersion` -/

/-- C1: `getVersion` is not total.  The reference name `release/foo` passes
the first pattern, the second pattern does not match it, and reading group 1 of
the `null` result raises a type error, whatever the build number is. -/
theorem getVersion_release_foo_raises :
    isReleaseRef "release/foo".toList = true ∧
    matchReleaseVersion "release/foo".toList = none ∧
    ∀ bn, getVersion (some "release/foo".toList) bn = .error .typeError := by
  refine ⟨by decide, by decide, ?_⟩
  intro bn
  rfl

/-- C5, as stated, fails: with no reference name and the build number `1.2`
the version is `0.0.1`, not `0.0.` followed by the build number; and the
reference name `Release/1.2`, which starts neither with `release` nor with
`refs/heads/` as written, is taken for a release and gives `1.2.7` with the
build number `7`. -/
theorem getVersion_default_dotted_build :
    getVersion none (some "1.2".toList) = .ok "0.0.1".toList ∧
    getVersion none (some "1.2".toList) ≠ .ok ("0.0.".toList ++ "1.2".toList) ∧
    ¬ ("release".toList <+: "Release/1.2".toList) ∧
    ¬ ("refs/heads/".toList <+: "Release/1.2".toList) ∧
    getVersion (some "Release/1.2".toList) (some "7".toList) = .ok "1.2.7".toList ∧
    getVersion (some "Release/1.2".toList) (some "7".toList) ≠
      .ok ("0.0.".toList ++ "7".toList) := by
  decide

/-- C5, amended: when the reference name is absent or does not start with
`release`, or `refs/heads/` and then `release`, in any letter case, followed by
a slash or a hyphen, and the build number is present and has no dot, the
version is `0.0.` followed by the build number, an empty build number counting
as `0`. -/
theorem getVersion_default_build (ref : Option Str) (n : Str)
    (href : ref = none ∨ ∃ r, ref = some r ∧ ¬ HasReleaseHead r) (hn : '.' ∉ n) :
    getVersion ref (some n) =
      .ok ("0.0.".toList ++ (if n = [] then "0".toList else n)) := by
  have href2 : ref = none ∨ ∃ r, ref = some r ∧ isReleaseRef r = false := by
    rcases href with h | ⟨r, hr, hh⟩
    · exact Or.inl h
    · refine Or.inr ⟨r, hr, ?_⟩
      cases hb : isReleaseRef r with
      | false => rfl
      | true => exact absurd ((hasReleaseHead_iff r).2 hb) hh
  rw [getVersion_default ref (some n) href2]
  by_cases hne : n = []
  · subst hne; rfl
  · rw [templateString, split_buildTail n hne hn, if_neg hne]
    simp [join]

theorem getVersion_default_build_witness :
    (¬ HasReleaseHead "refs/heads/main".toList ∧ '.' ∉ "47".toList) ∧
    getVersion (some "refs/heads/main".toList) (some "47".toList) = .ok "0.0.47".toList :=
  ⟨⟨fun h => absurd ((hasReleaseHead_iff _).1 h) (by decide), by decide⟩,
    getVersion_default_build (some "refs/heads/main".toList) "47".toList
      (Or.inr ⟨_, rfl, fun h => absurd ((hasReleaseHead_iff _).1 h) (by decide)⟩)
      (by decide)⟩

/-- C6: for a reference name `release/M.m` or `release-M.m`, with or without
`refs/heads/` in front, M and m numbers, and a build number n that is a
number, the version is `M.m.n`. -/
theorem getVersion_release_major_minor (withPrefix : Bool) (sep : Char) (M m n : Str)
    (hsep : sep = '/' ∨ sep = '-') (hM : IsNumber M) (hm : IsNumber m) (hn : IsNumber n) :
    getVersion
        (some ((if withPrefix then refsHeadsSlash else []) ++ releaseWord ++ [sep] ++
          (M ++ ['.'] ++ m)))
        (some n) =
      .ok (M ++ ['.'] ++ m ++ ['.'] ++ n) := by
  have h := getVersion_releaseRef withPrefix sep [M, m] (some n) hsep (by simp) (by simp)
    (by intro c hc; simp at hc; rcases hc with rfl | rfl <;> assumption)
  rw [templateString, split_buildTail n hn.1 hn.dot_not_mem] at h
  simpa [releaseRef, join] using h

theorem getVersion_release_major_minor_witness :
    (IsNumber "2".toList ∧ IsNumber "3".toList ∧ IsNumber "47".toList) ∧
    getVersion (some "refs/heads/release/2.3".toList) (some "47".toList) =
      .ok "2.3.47".toList :=
  ⟨by decide,
    getVersion_release_major_minor true '/' "2".toList "3".toList "47".toList
      (Or.inl rfl) (by decide) (by decide) (by decide)⟩

/-- C7: with the reference name `release-1` and `GITHUB_RUN_NUMBER` not set,
the template literal turns the undefined build number into the text
`undefined`, which is not replaced by `0`: the version is `1.undefined.0`, not
`1.0.0`. -/
theorem getVersion_release_1_no_build :
    getVersion (some "release-1".toList) none = .ok "1.undefined.0".toList ∧
    getVersion (some "release-1".toList) none ≠ .ok "1.0.0".toList := by
  decide

/-- C8: the version of a pull-request build does not carry the pull-request
identifier.  `getVersion` reads `GITHUB_REF` and `GITHUB_RUN_NUMBER` only; its
local `pull_request` is the empty string, so the branch that its comment gives
to pull-request builds is never taken.  On the build of pull request `42`, with
reference name `refs/pull/42/merge` and build number `7`, the version is
`0.0.7`, which does not start with `0.42`. -/
theorem resolve_pull_request_build :
    resolve ⟨some "refs/pull/42/merge".toList, some "7".toList, some "42".toList⟩ =
      .ok "0.0.7".toList ∧
    ¬ ("0.42".toList <+: "0.0.7".toList) := by
  decide

/-- C10: for any reference name and a build number that is a number, a version
returned by `getVersion` is three numbers joined by dots, and splitting it at
the dots gives exactly these three; a release reference of four components
yields its first three. -/
theorem getVersion_triple (ref : Option Str) (n v : Str) (hn : IsNumber n)
    (h : getVersion ref (some n) = .ok v) :
    (∃ major minor patch, IsNumber major ∧ IsNumber minor ∧ IsNumber patch ∧
      v = major ++ ['.'] ++ minor ++ ['.'] ++ patch ∧ split '.' v = [major, minor, patch]) ∧
    ∀ (withPrefix : Bool) (sep : Char) (a b c d : Str), (sep = '/' ∨ sep = '-') →
      IsNumber a → IsNumber b → IsNumber c → IsNumber d →
      getVersion (some (releaseRef withPrefix sep (a ++ ['.'] ++ b ++ ['.'] ++ c ++ ['.'] ++ d)))
        (some n) = .ok (a ++ ['.'] ++ b ++ ['.'] ++ c) := by
  have hbt := split_buildTail n hn.1 hn.dot_not_mem
  have key : ∀ cs : List Str, cs ≠ [] → (∀ c ∈ cs, IsNumber c) →
      v = join ['.'] ((cs ++ split '.' (buildTail (templateString (some n)))).take 3) →
      ∃ major minor patch, IsNumber major ∧ IsNumber minor ∧ IsNumber patch ∧
        v = major ++ ['.'] ++ minor ++ ['.'] ++ patch ∧
        split '.' v = [major, minor, patch] := by
    intro cs hne hnum hv
    rw [templateString, hbt] at hv
    have hall : ∀ x ∈ cs ++ [n, ['0'], ['0'], ['0'], ['0']], IsNumber x := by
      intro x hx
      rcases List.mem_append.1 hx with hx | hx
      · exact hnum x hx
      · simp at hx
        rcases hx with rfl | rfl <;> first | exact hn | exact isNumber_zero
    obtain ⟨a, b, c, ha, hb, hc, e⟩ := take_three _ (by simp) hall
    rw [e] at hv
    have hv2 : v = a ++ ['.'] ++ b ++ ['.'] ++ c := by rw [hv]; simp [join]
    exact ⟨a, b, c, ha, hb, hc, hv2, by rw [hv2]; exact split_triple a b c ha hb hc⟩
  constructor
  · have zeros : ∀ c ∈ [['0'], ['0']], IsNumber c := by
      intro c hc; simp at hc; subst hc; exact isNumber_zero
    cases ref with
    | none =>
      rw [getVersion_default none (some n) (Or.inl rfl)] at h
      exact key [['0'], ['0']] (by simp) zeros (Except.ok.inj h).symm
    | some b =>
      by_cases hr : isReleaseRef b = false
      · rw [getVersion_default (some b) (some n) (Or.inr ⟨b, rfl, hr⟩)] at h
        exact key [['0'], ['0']] (by simp) zeros (Except.ok.inj h).symm
      · have hr1 : isReleaseRef b = true := by simpa using hr
        have hb : b ≠ [] := by rintro rfl; exact absurd hr1 (by decide)
        cases hm : matchReleaseVersion b with
        | none => simp [getVersion, getVersionBody, hr1, hb, hm] at h
        | some cap =>
          obtain ⟨r, hcap⟩ := matchReleaseVersion_some b cap hm
          obtain ⟨cs, hne, _, hnum, rfl⟩ := matchVersionToEnd_some r cap hcap
          have h5 := assemble_join cs (templateString (some n)) hne
            (fun c hc => (hnum c hc).dot_not_mem)
          simp [getVersion, getVersionBody, hr1, hb, hm, h5] at h
          exact key cs hne hnum h.symm
  · intro withPrefix sep a b c d hsep ha hb hc hd
    have h4 := getVersion_releaseRef withPrefix sep [a, b, c, d] (some n) hsep (by simp)
      (by simp)
      (by intro x hx; simp at hx; rcases hx with rfl | rfl | rfl | rfl <;> assumption)
    simpa [join] using h4

theorem getVersion_triple_witness :
    (IsNumber "47".toList ∧
      getVersion (some "release-1.2.3.4".toList) (some "47".toList) = .ok "1.2.3".toList) ∧
    ∃ major minor patch, IsNumber major ∧ IsNumber minor ∧ IsNumber patch ∧
      "1.2.3".toList = major ++ ['.'] ++ minor ++ ['.'] ++ patch ∧
      split '.' "1.2.3".toList = [major, minor, patch] :=
  ⟨by decide,
    (getVersion_triple (some "release-1.2.3.4".toList) "47".toList "1.2.3".toList
      (by decide) (by decide)).1⟩

/-! ## Properties of the `deploy` action -/

theorem replace_refsHeads_append (rest : Str) : replace refsHeads [] (refsHeads ++ rest) = rest := by
  simp [replace, refsHeads]

theorem isMainLine_iff (ref : Option Str) : isMainLine ref = true ↔ ref = some refsHeadsMain := by
  simp [isMainLine]

theorem stageOf_main : stageOf (some refsHeadsMain) = some production := by
  decide

theorem stageOf_other (r : Str) (h : r ≠ refsHeadsMain) :
    stageOf (some r) = some (replace refsHeads [] r) := by
  simp [stageOf, isMainLine, h]

/-- The runs of the action, case by case. -/
theorem deployAction_eq (ref rn : Option Str) (name version : Str) (w : World) :
    deployAction ref rn name version w =
      if w.construct = false then ⟨[], .failed⟩
      else if w.resolves .publishLambdaArtifactPromise = false then
        ⟨[.publishLambdaArtifactPromise], .failed⟩
      else if w.requireTemplate = false then ⟨[.publishLambdaArtifactPromise], .failed⟩
      else if ref = some refsHeadsMain then
        if w.resolves (templateCall rn name) = false then
          ⟨[.publishLambdaArtifactPromise, templateCall rn name], .failed⟩
        else if w.resolves (stageCall production name version) = false then
          ⟨[.publishLambdaArtifactPromise, templateCall rn name,
            stageCall production name version], .failed⟩
        else
          ⟨[.publishLambdaArtifactPromise, templateCall rn name,
            stageCall production name version, .cleanupPreviousFunctionVersions name],
            if w.resolves (.cleanupPreviousFunctionVersions name) = false then .failed
            else .succeeded⟩
      else
        match ref with
        | none => ⟨[.publishLambdaArtifactPromise], .failed⟩
        | some r =>
          ⟨[.publishLambdaArtifactPromise, stageCall (replace refsHeads [] r) name version],
            if w.resolves (stageCall (replace refsHeads [] r) name version) = false then .failed
            else .succeeded⟩ := by
  cases hc : w.construct <;> cases hp : w.resolves .publishLambdaArtifactPromise <;>
    cases ht : w.requireTemplate <;>
    try (simp [deployAction, deployTry, bind, Script.andThen, check, await, pure, raise,
      hc, hp, ht]; done)
  by_cases hm : ref = some refsHeadsMain
  · subst hm
    cases hd : w.resolves (templateCall rn name) <;>
      cases hs : w.resolves (stageCall production name version) <;>
      cases hf : w.resolves (.cleanupPreviousFunctionVersions name) <;>
      simp [deployAction, deployTry, bind, Script.andThen, check, await, pure, raise,
        hc, hp, ht, hd, hs, hf, isMainLine_iff, stageOf_main]
  · have hm2 : isMainLine ref = false := by simpa [isMainLine] using hm
    cases ref with
    | none =>
      simp [deployAction, deployTry, bind, Script.andThen, check, await, pure, raise,
        hc, hp, ht, hm2, stageOf]
    | some r =>
      have hr : r ≠ refsHeadsMain := fun e => hm (by rw [e])
      cases hs : w.resolves (stageCall (replace refsHeads [] r) name version) <;>
        simp [deployAction, deployTry, bind, Script.andThen, check, await, pure, raise,
          hc, hp, ht, hs, hm2, hr, stageOf_other r hr]

theorem short_of_last (w : World) (pre : List Call) (c x : Call)
    (hpre : ∀ b ∈ pre, w.resolves b = true) (hx : x ∈ pre ++ [c])
    (hfx : w.resolves x = false) :
    ∃ before, pre ++ [c] = before ++ [x] ∧ ∀ b ∈ before, w.resolves b = true := by
  rcases List.mem_append.1 hx with h | h
  · rw [hpre x h] at hfx; exact absurd hfx (by simp)
  · simp at h; subst h; exact ⟨pre, rfl, hpre⟩

/-- Every run is a sequence of calls that resolve, possibly followed by one
call that rejects, after which the action has failed. -/
theorem deploy_shape (ref rn : Option Str) (name version : Str) (w : World) :
    ∃ pre, (∀ b ∈ pre, w.resolves b = true) ∧
      ((∃ st, deployAction ref rn name version w = ⟨pre, st⟩) ∨
        ∃ c, w.resolves c = false ∧
          deployAction ref rn name version w = ⟨pre ++ [c], .failed⟩) := by
  rw [deployAction_eq]
  by_cases hc : w.construct = false
  · exact ⟨[], by simp, Or.inl ⟨_, by rw [if_pos hc]⟩⟩
  rw [if_neg hc]
  by_cases hp : w.resolves .publishLambdaArtifactPromise = false
  · exact ⟨[], by simp, Or.inr ⟨_, hp, by rw [if_pos hp]; rfl⟩⟩
  rw [if_neg hp]
  have hp1 : w.resolves .publishLambdaArtifactPromise = true := by simpa using hp
  by_cases ht : w.requireTemplate = false
  · exact ⟨[.publishLambdaArtifactPromise], by simp [hp1], Or.inl ⟨_, by rw [if_pos ht]⟩⟩
  rw [if_neg ht]
  by_cases hm : ref = some refsHeadsMain
  · rw [if_pos hm]
    by_cases hd : w.resolves (templateCall rn name) = false
    · exact ⟨[.publishLambdaArtifactPromise], by simp [hp1],
        Or.inr ⟨_, hd, by rw [if_pos hd]; rfl⟩⟩
    rw [if_neg hd]
    have hd1 : w.resolves (templateCall rn name) = true := by simpa using hd
    by_cases hs : w.resolves (stageCall production name version) = false
    · exact ⟨[.publishLambdaArtifactPromise, templateCall rn name], by simp [hp1, hd1],
        Or.inr ⟨_, hs, by rw [if_pos hs]; rfl⟩⟩
    rw [if_neg hs]
    have hs1 : w.resolves (stageCall production name version) = true := by simpa using hs
    by_cases hf : w.resolves (.cleanupPreviousFunctionVersions name) = false
    · exact ⟨[.publishLambdaArtifactPromise, templateCall rn name,
          stageCall production name version], by simp [hp1, hd1, hs1],
        Or.inr ⟨_, hf, by rw [if_pos hf]; rfl⟩⟩
    · have hf1 : w.resolves (.cleanupPreviousFunctionVersions name) = true := by
        simpa using hf
      exact ⟨[.publishLambdaArtifactPromise, templateCall rn name,
          stageCall production name version, .cleanupPreviousFunctionVersions name],
        by simp [hp1, hd1, hs1, hf1], Or.inl ⟨_, rfl⟩⟩
  · rw [if_neg hm]
    cases ref with
    | none => exact ⟨[.publishLambdaArtifactPromise], by simp [hp1], Or.inl ⟨_, rfl⟩⟩
    | some r =>
      by_cases hs : w.resolves (stageCall (replace refsHeads [] r) name version) = false
      · exact ⟨[.publishLambdaArtifactPromise], by simp [hp1],
          Or.inr ⟨_, hs, by simp only [if_pos hs]; rfl⟩⟩
      · have hs1 : w.resolves (stageCall (replace refsHeads [] r) name version) = true := by
          simpa using hs
        exact ⟨[.publishLambdaArtifactPromise,
            stageCall (replace refsHeads [] r) name version], by simp [hp1, hs1],
          Or.inl ⟨_, rfl⟩⟩

theorem stageOf_of_mem (ref rn : Option Str) (name version : Str) (w : World)
    (stage fn key : Str)
    (h : Call.publishAndDeployStagePromise stage fn key ∈
      (deployAction ref rn name version w).calls) : stageOf ref = some stage := by
  rw [deployAction_eq] at h
  by_cases hc : w.construct = false
  · simp [hc] at h
  by_cases hp : w.resolves .publishLambdaArtifactPromise = false
  · simp [hc, hp] at h
  by_cases ht : w.requireTemplate = false
  · simp [hc, hp, ht] at h
  rw [if_neg hc, if_neg hp, if_neg ht] at h
  by_cases hm : ref = some refsHeadsMain
  · subst hm
    rw [stageOf_main, if_pos rfl] at *
    by_cases hd : w.resolves (templateCall rn name) = false
    · rw [if_pos hd] at h
      simp [templateCall] at h
    rw [if_neg hd] at h
    by_cases hs : w.resolves (stageCall production name version) = false
    · rw [if_pos hs] at h
      simp [templateCall, stageCall] at h
      rw [h.1]
    · rw [if_neg hs] at h
      simp [templateCall, stageCall] at h
      rw [h.1]
  · rw [if_neg hm] at h
    cases ref with
    | none => simp at h
    | some r =>
      have hr : r ≠ refsHeadsMain := fun e => hm (by rw [e])
      simp [stageCall] at h
      rw [stageOf_other r hr, h.1]

/-- C2, as stated, fails: on a main-line run in which only
`cleanupPreviousFunctionVersions` fails, all four calls are made and the action
ends in its `catch` block. -/
theorem deploy_cleanup_failure_example :
    deployAction (some refsHeadsMain) (some "7".toList) "vanish".toList "0.0.7".toList
        onlyCleanupFails =
      ⟨[.publishLambdaArtifactPromise, templateCall (some "7".toList) "vanish".toList,
          stageCall production "vanish".toList "0.0.7".toList,
          .cleanupPreviousFunctionVersions "vanish".toList], .failed⟩ := by
  decide

/-- C2, amended: on a main-line run in which the constructor, the template
load, the publication, `deployTemplate` and the stage promotion succeed and
`cleanupPreviousFunctionVersions` fails, the four calls are made in order and
the action ends in its `catch` block, which exits with status 1. -/
theorem deploy_cleanup_failure_fatal (rn : Option Str) (name version : Str) (w : World)
    (hc : w.construct = true) (ht : w.requireTemplate = true)
    (hp : w.resolves .publishLambdaArtifactPromise = true)
    (hd : w.resolves (templateCall rn name) = true)
    (hs : w.resolves (stageCall production name version) = true)
    (hf : w.resolves (.cleanupPreviousFunctionVersions name) = false) :
    deployAction (some refsHeadsMain) rn name version w =
      ⟨[.publishLambdaArtifactPromise, templateCall rn name,
          stageCall production name version, .cleanupPreviousFunctionVersions name],
        .failed⟩ := by
  simp [deployAction, deployTry, bind, Script.andThen, check, await, pure, raise,
    isMainLine_iff, stageOf_main, hc, ht, hp, hd, hs, hf]

theorem deploy_cleanup_failure_fatal_witness :
    (deployAction (some refsHeadsMain) none "vanish".toList "0.0.0".toList
      onlyCleanupFails).status = .failed :=
  congrArg Run.status
    (deploy_cleanup_failure_fatal none "vanish".toList "0.0.0".toList onlyCleanupFails
      rfl rfl rfl rfl rfl rfl)

/-- C3: in a run in which nothing fails, the calls of a main-line run are
`publishLambdaArtifactPromise`, `deployTemplate`, `publishAndDeployStagePromise`
with the stage `production` and `cleanupPreviousFunctionVersions`, in this
order, so `deployTemplate` is called once and before the promotion; the calls
of a run on any other reference name are `publishLambdaArtifactPromise` and
`publishAndDeployStagePromise`, the stage being the reference name without its
first `refs/heads`, so neither `deployTemplate` nor
`cleanupPreviousFunctionVersions` is called. -/
theorem deploy_call_sequence (rn : Option Str) (name version : Str) (w : World)
    (hc : w.construct = true) (ht : w.requireTemplate = true)
    (hall : ∀ c, w.resolves c = true) :
    deployAction (some "refs/heads/main".toList) rn name version w =
      ⟨[Call.publishLambdaArtifactPromise,
          Call.deployTemplate (changeSetName rn) name name "vanish".toList
            "authress.io".toList "Z0450507492KPW6PS5CR".toList,
          Call.publishAndDeployStagePromise "production".toList name
            (deploymentKeyName name version),
          Call.cleanupPreviousFunctionVersions name],
        Status.succeeded⟩ ∧
    ∀ ref, ref ≠ "refs/heads/main".toList →
      deployAction (some ref) rn name version w =
        ⟨[Call.publishLambdaArtifactPromise,
            Call.publishAndDeployStagePromise (replace "refs/heads".toList [] ref) name
              (deploymentKeyName name version)],
          Status.succeeded⟩ := by
  have e1 : "refs/heads/main".toList = refsHeadsMain := rfl
  have e2 : "refs/heads".toList = refsHeads := rfl
  have e3 : "production".toList = production := rfl
  rw [e1, e2, e3]
  constructor
  · simp [deployAction, deployTry, bind, Script.andThen, check, await, pure, raise,
      isMainLine_iff, stageOf_main, templateCall, stageCall, hc, ht, hall]
  · intro ref href
    have hm : isMainLine (some ref) = false := by simp [isMainLine, href]
    simp [deployAction, deployTry, bind, Script.andThen, check, await, pure, raise,
      hm, stageOf_other ref href, stageCall, hc, ht, hall]

theorem deploy_call_sequence_witness :
    deployAction (some "refs/heads/main".toList) (some "7".toList) "vanish".toList
        "0.0.7".toList allSucceed =
      ⟨[Call.publishLambdaArtifactPromise,
          Call.deployTemplate "main-7".toList "vanish".toList "vanish".toList
            "vanish".toList "authress.io".toList "Z0450507492KPW6PS5CR".toList,
          Call.publishAndDeployStagePromise "production".toList "vanish".toList
            "vanish/0.0.7/lambda.zip".toList,
          Call.cleanupPreviousFunctionVersions "vanish".toList],
        Status.succeeded⟩ ∧
    deployAction (some "refs/heads/feature".toList) (some "7".toList) "vanish".toList
        "0.0.7".toList allSucceed =
      ⟨[Call.publishLambdaArtifactPromise,
          Call.publishAndDeployStagePromise "/feature".toList "vanish".toList
            "vanish/0.0.7/lambda.zip".toList],
        Status.succeeded⟩ :=
  ⟨(deploy_call_sequence (some "7".toList) "vanish".toList "0.0.7".toList allSucceed rfl rfl
      (fun _ => rfl)).1,
    (deploy_call_sequence (some "7".toList) "vanish".toList "0.0.7".toList allSucceed rfl rfl
      (fun _ => rfl)).2 "refs/heads/feature".toList (by decide)⟩

/-- C4: in every run, a call whose promise rejects is the last call of the run,
every call before it resolved, and the action ends in its `catch` block.  When
the publication rejects, no other call is made; when `deployTemplate` rejects
on a main-line run, only the publication and `deployTemplate` are called. -/
theorem deploy_failure_short_circuits (ref rn : Option Str) (name version : Str) (w : World) :
    (∀ c ∈ (deployAction ref rn name version w).calls, w.resolves c = false →
      (∃ before, (deployAction ref rn name version w).calls = before ++ [c] ∧
        ∀ b ∈ before, w.resolves b = true) ∧
      (deployAction ref rn name version w).status = .failed) ∧
    (w.resolves .publishLambdaArtifactPromise = false →
      (∀ x ∈ (deployAction ref rn name version w).calls, x = .publishLambdaArtifactPromise) ∧
      (deployAction ref rn name version w).status = .failed) ∧
    (ref = some refsHeadsMain → w.resolves (templateCall rn name) = false →
      (∀ x ∈ (deployAction ref rn name version w).calls,
        x = .publishLambdaArtifactPromise ∨ x = templateCall rn name) ∧
      (deployAction ref rn name version w).status = .failed) := by
  refine ⟨?_, ?_, ?_⟩
  · intro c hc hfc
    obtain ⟨pre, hpre, ⟨st, e⟩ | ⟨c0, hc0, e⟩⟩ := deploy_shape ref rn name version w
    · rw [e] at hc
      rw [hpre c hc] at hfc
      exact absurd hfc (by simp)
    · rw [e] at hc ⊢
      exact ⟨short_of_last w pre c0 c hpre hc hfc, rfl⟩
  · intro hp
    rw [deployAction_eq]
    by_cases hc : w.construct = false
    · simp [hc]
    · simp [hc, hp]
  · intro hm hd
    rw [deployAction_eq]
    by_cases hc : w.construct = false
    · simp [hc]
    by_cases hp : w.resolves .publishLambdaArtifactPromise = false
    · simp [hc, hp]
    by_cases ht : w.requireTemplate = false
    · simp [hc, hp, ht]
    · simp [hc, hp, ht, hm, hd]

theorem deploy_failure_short_circuits_witness :
    onlyTemplateFails.resolves (templateCall none "vanish".toList) = false ∧
    (∀ x ∈ (deployAction (some refsHeadsMain) none "vanish".toList "0.0.0".toList
        onlyTemplateFails).calls,
      x = .publishLambdaArtifactPromise ∨ x = templateCall none "vanish".toList) ∧
    (deployAction (some refsHeadsMain) none "vanish".toList "0.0.0".toList
      onlyTemplateFails).status = .failed :=
  ⟨rfl,
    (deploy_failure_short_circuits (some refsHeadsMain) none "vanish".toList "0.0.0".toList
      onlyTemplateFails).2.2 rfl rfl⟩

/-- C9, as stated, fails: on the reference name `refs/headsproduction`, which
begins with `refs/heads`, the run is not main-line and the stage is
`production`. -/
theorem deploy_stage_production_not_main :
    isMainLine (some "refs/headsproduction".toList) = false ∧
    deployAction (some "refs/headsproduction".toList) none "vanish".toList "0.0.0".toList
        allSucceed =
      ⟨[.publishLambdaArtifactPromise,
          stageCall production "vanish".toList "0.0.0".toList], .succeeded⟩ := by
  decide

/-- C9, amended: the run is main-line exactly when the reference name is
`refs/heads/main`; the stage passed to `publishAndDeployStagePromise` is
`production` on a main-line run; for every other reference name that begins
with `refs/heads` it is the reference name without that prefix; and for a
reference name that begins with `refs/heads/` it is `production` exactly on a
main-line run. -/
theorem deploy_stage (ref rn : Option Str) (name version : Str) (w : World)
    (stage fn key : Str)
    (h : Call.publishAndDeployStagePromise stage fn key ∈
      (deployAction ref rn name version w).calls) :
    (isMainLine ref = true ↔ ref = some refsHeadsMain) ∧
    (ref = some refsHeadsMain → stage = production) ∧
    (∀ rest, ref = some (refsHeads ++ rest) → refsHeads ++ rest ≠ refsHeadsMain →
      stage = rest) ∧
    (∀ rest, ref = some (refsHeadsSlash ++ rest) →
      (stage = production ↔ ref = some refsHeadsMain)) := by
  have hst := stageOf_of_mem ref rn name version w stage fn key h
  refine ⟨isMainLine_iff ref, ?_, ?_, ?_⟩
  · rintro rfl
    rw [stageOf_main] at hst
    exact (Option.some.inj hst).symm
  · rintro rest rfl hne
    rw [stageOf_other _ hne, replace_refsHeads_append] at hst
    exact (Option.some.inj hst).symm
  · rintro rest rfl
    by_cases hm : refsHeadsSlash ++ rest = refsHeadsMain
    · rw [hm, stageOf_main] at hst
      simp [hm, (Option.some.inj hst).symm]
    · have e : refsHeadsSlash ++ rest = refsHeads ++ '/' :: rest := rfl
      rw [stageOf_other _ hm, e, replace_refsHeads_append] at hst
      have hs : stage = '/' :: rest := (Option.some.inj hst).symm
      constructor
      · intro hp
        rw [hs] at hp
        simp [production] at hp
      · intro hr
        exact absurd (Option.some.inj hr) hm

theorem deploy_stage_witness :
    Call.publishAndDeployStagePromise "/feature".toList "vanish".toList
        (deploymentKeyName "vanish".toList "0.0.0".toList) ∈
      (deployAction (some "refs/heads/feature".toList) none "vanish".toList "0.0.0".toList
        allSucceed).calls ∧
    ("/feature".toList = production ↔
      some "refs/heads/feature".toList = some refsHeadsMain) :=
  ⟨by decide,
    (deploy_stage (some "refs/heads/feature".toList) none "vanish".toList "0.0.0".toList
      allSucceed "/feature".toList "vanish".toList
      (deploymentKeyName "vanish".toList "0.0.0".toList) (by decide)).2.2.2
      "feature".toList rfl⟩

end VanishingKeys
